import Mathlib

/-!
A shallow embedding in Lean 4 of `scripts/scrape_openai_news.py`
(TimelineJS3 OpenAI-news scraping workflow), together with theorems
settling the specification claims about it.

The embedding follows the Python source function by function:
  * `classify_article` / `CATEGORY_RULES`  — keyword classification,
  * `year_of`                              — year extraction (regex search),
  * `cmd_phase`                            — year filtering, classification,
                                             per-item translation fallback,
  * `cmd_fetch`'s dedup loop               — seen-set accumulation,
  * `_parse_date`, `_sort_key`, `cmd_merge`— merge of phase files.

External effects (HTTP, the translation API, the file system) are made
explicit parameters: pages and phase files are inputs, the translation
call is an oracle, and `cmd_merge`'s effects are a step trace.
-/

/- ──────────────────── substring test (Python `kw in text`) ──────────────── -/

/-- Boolean test that `pat` is an initial segment of `l`. -/
def leadsWith : List Char → List Char → Bool
  | [], _ => true
  | _ :: _, [] => false
  | a :: as, b :: bs => a == b && leadsWith as bs

/-- Boolean test that `pat` occurs contiguously inside `l`
(some suffix of `l` starts with `pat`). -/
def subAt (pat : List Char) : List Char → Bool
  | [] => leadsWith pat []
  | c :: rest => leadsWith pat (c :: rest) || subAt pat rest

/-- Embedding of the Python membership test `kw in text` on strings. -/
def containsSub (text kw : String) : Bool := subAt kw.data text.data

/- ──────────────────── CATEGORY_RULES / classify_article ─────────────────── -/

/-- The fixed, ordered classification rule table of the script
(`CATEGORY_RULES`): checked in order, first match wins. -/
def CATEGORY_RULES : List (String × List String) := [
  ("融资", [
    "funding", "investment", "invest", "raises", "valuation",
    "billion", "million", "capital", "financing", "secured",
    "series ", "round "]),
  ("合作", [
    "partnership", "partner with", "agreement with", "collaboration with",
    "teams with", "works with", "integrat",
    "microsoft", "apple", "softbank", "oracle", "salesforce",
    "nvidia", "amazon", "google", "lg ", "arm "]),
  ("研究", [
    "research", "technical report", "arxiv", "we trained",
    "breakthrough", "scaling", "alignment", "superalignment",
    "interpretability", "emergent", "multimodal", "reinforcement learning",
    "preparedness"]),
  ("政策", [
    "safety", "governance", "policy", "regulation", "congressional",
    "government", "legislation", "senate", "congress",
    "democratic inputs", "executive order", "ai act", "board of"]),
  ("产品", [
    "introducing", "launch", "new model", "available", "releasing",
    "release", "chatgpt", "gpt-", "dall-e", "dall·e",
    "whisper", "sora", "codex", "operator", "o1 ", "o3 ", "o4 ",
    "jukebox", "point-e", "universe", "gym", "plugin", "store",
    "assistants api", "voice mode", "canvas", "deep research",
    "tasks", "projects", "memory", "custom instructions",
    "api ", "access to", "we’re releasing", "we are releasing"])]

/-- The lowercased text the classifier scans: `(title + " " + url).lower()`
(character-wise lowercasing, written over the character list so that it
evaluates inside the kernel). -/
def lowerText (title url : String) : String :=
  String.mk ((title ++ " " ++ url).data.map Char.toLower)

/-- A rule hits when one of its keywords occurs in the text. -/
def ruleHits (text : String) (rule : String × List String) : Bool :=
  rule.2.any (fun kw => containsSub text kw)

/-- Embedding of `classify_article`: scan `CATEGORY_RULES` in order and
return the category of the first rule with a keyword occurring in the
lowercased title-and-url text; `none` when no rule hits. -/
def classify_article (title url : String) : Option String :=
  (CATEGORY_RULES.find? (ruleHits (lowerText title url))).map Prod.fst

/- ──────────────────── year_of ────────────────────────────────────────────── -/

/-- Python regex word character (`\w`, ASCII part): letter, digit or `_`. -/
def isWordChar (c : Char) : Bool := c.isAlphanum || c == '_'

/-- A `\b` word boundary holds between `prev` and a (word) year digit. -/
def boundaryOk (prev : Option Char) : Bool :=
  match prev with
  | none => true
  | some c => !isWordChar c

/-- Numeric value of an ASCII digit character. -/
def digitVal (c : Char) : Nat := c.toNat - 48

/-- Attempt of the year regex `\b(20\d{2}|201[0-9]|200[0-9])\b` at the
current position: four characters `20dd` with word boundaries on both
sides (the first alternative subsumes the other two). -/
def yearAt (prev : Option Char) (l : List Char) : Option Nat :=
  match l with
  | '2' :: '0' :: a :: b :: rest =>
    if a.isDigit && b.isDigit && boundaryOk prev &&
        (match rest with | [] => true | c :: _ => !isWordChar c) then
      some (2000 + digitVal a * 10 + digitVal b)
    else none
  | _ => none

/-- Leftmost match of the year regex (`re.search` semantics). -/
def yearSearch (prev : Option Char) (l : List Char) : Option Nat :=
  match yearAt prev l with
  | some y => some y
  | none =>
    match l with
    | [] => none
    | c :: rest => yearSearch (some c) rest

/-- Embedding of `year_of`: `None` for an empty string, else the first
year-like token `20dd` (with word boundaries) found in the string. -/
def year_of (s : String) : Option Nat :=
  if s.data = [] then none else yearSearch none s.data

/- ──────────────────── data records ──────────────────────────────────────── -/

/-- A raw article record as produced by `cmd_fetch` / `_normalize`
(missing fields are the empty string, like `art.get(k, "")`). -/
structure RawArticle where
  title : String
  url : String
  date_str : String
  deriving DecidableEq, Repr

/-- A raw article that received a `category` field in `cmd_phase`. -/
structure ClassifiedArticle where
  title : String
  url : String
  date_str : String
  category : String
  deriving DecidableEq, Repr

/-- An article after the translation loop of `cmd_phase`:
`headline_zh` and `summary_zh` have been set. -/
structure TranslatedArticle where
  title : String
  url : String
  date_str : String
  category : String
  headline_zh : String
  summary_zh : String
  deriving DecidableEq, Repr

/- ──────────────────── cmd_phase: filtering and classification ───────────── -/

/-- The year ranges of the four phases (`PHASE_RANGES`). -/
def PHASE_RANGES : List (Nat × (Nat × Nat)) :=
  [(1, (2015, 2019)), (2, (2020, 2021)), (3, (2022, 2023)), (4, (2024, 9999))]

/-- The in-range filter of `cmd_phase`: keep an article when `year_of` of
its raw date string is truthy and lies between `lo` and `hi`. -/
def phaseFilter (lo hi : Nat) (arts : List RawArticle) : List RawArticle :=
  arts.filter (fun a =>
    match year_of a.date_str with
    | some y => decide (lo ≤ y) && decide (y ≤ hi)
    | none => false)

/-- The input set of phase `n`: the raw articles whose year falls in the
phase's range (empty for a phase number outside the table, where the
script exits before selecting anything). -/
def phaseInput (n : Nat) (arts : List RawArticle) : List RawArticle :=
  match List.lookup n PHASE_RANGES with
  | some (lo, hi) => phaseFilter lo hi arts
  | none => []

/-- The classification pass of `cmd_phase`: articles with no matching rule
are skipped, the rest receive their category, in input order. -/
def classifyPhase (arts : List RawArticle) : List ClassifiedArticle :=
  arts.filterMap (fun a =>
    (classify_article a.title a.url).map (fun cat =>
      { title := a.title, url := a.url, date_str := a.date_str, category := cat }))

/- ──────────────────── cmd_phase: translation loop ───────────────────────── -/

/-- Outcome of one call to the translation API, made explicit:
`fail` is any raised exception (network error, non-JSON content, a
response that is not an object), `ok h s` a parsed JSON object whose
`headline` / `summary` keys may each be absent. -/
inductive TransResult where
  | fail
  | ok (headline : Option String) (summary : Option String)
  deriving DecidableEq, Repr

/-- One iteration of the translation loop: on failure the article keeps
its original title as `headline_zh` and gets an empty `summary_zh`; on
success missing keys fall back the same way. -/
def translate_one (a : ClassifiedArticle) (r : TransResult) : TranslatedArticle :=
  match r with
  | .fail =>
    { title := a.title, url := a.url, date_str := a.date_str,
      category := a.category, headline_zh := a.title, summary_zh := "" }
  | .ok h s =>
    { title := a.title, url := a.url, date_str := a.date_str,
      category := a.category, headline_zh := h.getD a.title, summary_zh := s.getD "" }

/-- The translation loop from item index `i` on (`enumerate(classified, 1)`
starts at 1); `oracle i` is the outcome of the API call for item `i`. -/
def translateFrom (oracle : Nat → TransResult) : Nat → List ClassifiedArticle → List TranslatedArticle
  | _, [] => []
  | i, a :: rest => translate_one a (oracle i) :: translateFrom oracle (i + 1) rest

/-- What `cmd_phase n` writes to `phase{n}.json`: the in-range articles
that got a category, each translated (with per-item fallback). -/
def cmd_phase_output (n : Nat) (arts : List RawArticle) (oracle : Nat → TransResult) :
    List TranslatedArticle :=
  translateFrom oracle 1 (classifyPhase (phaseInput n arts))

/- ──────────────────── cmd_fetch: dedup loop ─────────────────────────────── -/

/-- The accumulation state of `cmd_fetch`: the seen-key set and the list
of collected articles (`seen`, `all_articles`). -/
structure FetchState where
  seen : List String
  acc : List RawArticle
  deriving DecidableEq, Repr

/-- The dedup key of a record: its URL when nonempty, else its title
(`art.get("url") or art.get("title", "")`). -/
def dedup_key (a : RawArticle) : String :=
  if a.url ≠ "" then a.url else a.title

/-- One step of the dedup loop: append the record and count it as new
exactly when its key is nonempty and unseen. -/
def addArticle : FetchState × Nat → RawArticle → FetchState × Nat
  | (st, n), a =>
    let key := dedup_key a
    if key ≠ "" && !(st.seen.contains key) then
      ({ seen := key :: st.seen, acc := st.acc ++ [a] }, n + 1)
    else (st, n)

/-- Processing one page's extracted article list against the accumulated
state; the `Nat` is the page's count of new records (`new`). -/
def processPage (st : FetchState) (page : List RawArticle) : FetchState × Nat :=
  page.foldl addArticle (st, 0)

/- ──────────────────── _parse_date ───────────────────────────────────────── -/

/-- A TimelineJS start date as built by `_parse_date`: string year and
month, the day field possibly absent. -/
structure StartDate where
  year : String
  month : String
  day : Option String
  deriving DecidableEq, Repr

/-- The strict numeric branch of `_parse_date`: a match of
`re.match(r"(\d{4})-(\d{2})-(\d{2})", s)` consumes only a prefix of the
input; the day field is omitted when the day group equals `"01"`. -/
def numericDate : List Char → Option StartDate
  | y1 :: y2 :: y3 :: y4 :: '-' :: m1 :: m2 :: '-' :: d1 :: d2 :: _ =>
    if y1.isDigit && y2.isDigit && y3.isDigit && y4.isDigit &&
        m1.isDigit && m2.isDigit && d1.isDigit && d2.isDigit then
      some { year := String.mk [y1, y2, y3, y4],
             month := String.mk [m1, m2],
             day := if String.mk [d1, d2] = "01" then none
                    else some (String.mk [d1, d2]) }
    else none
  | _ => none

/-- The fixed month-name table of `_parse_date`: full names and
three-letter abbreviations (`"may"` serves as both). -/
def month_map : List (String × String) := [
  ("january", "01"), ("february", "02"), ("march", "03"), ("april", "04"),
  ("may", "05"), ("june", "06"), ("july", "07"), ("august", "08"),
  ("september", "09"), ("october", "10"), ("november", "11"), ("december", "12"),
  ("jan", "01"), ("feb", "02"), ("mar", "03"), ("apr", "04"),
  ("jun", "06"), ("jul", "07"), ("aug", "08"),
  ("sep", "09"), ("oct", "10"), ("nov", "11"), ("dec", "12")]

/-- `str.zfill(2)` on the day group of the month-name pattern
(one or two digit characters). -/
def zfill2 (s : List Char) : String :=
  match s with
  | [c] => String.mk ['0', c]
  | _ => String.mk s

/-- The `,?\s+(\d{4})` tail of the month-name pattern: an optional comma,
at least one whitespace character, then the four year digits (anything
may follow). -/
def yearAfterDay (rest : List Char) : Option String :=
  let rest1 := match rest with
    | ',' :: t => t
    | t => t
  let (ws, rest2) := rest1.span Char.isWhitespace
  match ws, rest2 with
  | [], _ => none
  | _ :: _, a :: b :: c :: d :: _ =>
    if a.isDigit && b.isDigit && c.isDigit && d.isDigit then
      some (String.mk [a, b, c, d])
    else none
  | _, _ => none

/-- The month-name branch of `_parse_date`:
`re.match(r"([a-zA-Z]+)\s+(\d{1,2}),?\s+(\d{4})", s)` followed by the
`month_map` lookup of the lowercased name; the day group is greedy (two
digits when the tail still matches, else one) and the day field is
always present, zero-filled to width 2. -/
def monthNameDate (l : List Char) : Option StartDate :=
  let (letters, r1) := l.span Char.isAlpha
  match letters with
  | [] => none
  | _ :: _ =>
    let (ws, r2) := r1.span Char.isWhitespace
    match ws with
    | [] => none
    | _ :: _ =>
      let dayYear : Option (List Char × String) :=
        match r2 with
        | d1 :: d2 :: t =>
          if d1.isDigit then
            if d2.isDigit then
              match yearAfterDay t with
              | some y => some ([d1, d2], y)
              | none =>
                match yearAfterDay (d2 :: t) with
                | some y => some ([d1], y)
                | none => none
            else
              match yearAfterDay (d2 :: t) with
              | some y => some ([d1], y)
              | none => none
          else none
        | [_] => none
        | [] => none
      match dayYear with
      | none => none
      | some (day, y) =>
        match List.lookup (String.mk (letters.map Char.toLower)) month_map with
        | some mon => some { year := y, month := mon, day := some (zfill2 day) }
        | none => none

/-- Embedding of `_parse_date`: `None` on the empty string, else the
strict numeric prefix pattern, else the month-name pattern. -/
def _parse_date (s : String) : Option StartDate :=
  if s.data = [] then none
  else
    match numericDate s.data with
    | some r => some r
    | none => monthNameDate s.data

/- ──────────────────── cmd_merge ─────────────────────────────────────────── -/

/-- An article as read back from a `phase{n}.json` file in `cmd_merge`
(`category` is `none` when the key is absent; for the string fields an
absent key and the empty string behave identically in the source). -/
structure PhaseArticle where
  title : String
  url : String
  date_str : String
  category : Option String
  headline_zh : String
  summary_zh : String
  deriving DecidableEq, Repr

/-- The `text.text` of a TimelineJS event. -/
structure TLText where
  headline : String
  text : String
  deriving DecidableEq, Repr

/-- One event of the merged TimelineJS JSON. -/
structure TLEvent where
  start_date : StartDate
  text : TLText
  group : String
  deriving DecidableEq, Repr

/-- The `LINK_HTML` template applied to a URL. -/
def LINK_HTML (url : String) : String :=
  "<a href=\"" ++ url ++ "\" target=\"_blank\" " ++
  "style=\"display:block;margin-top:6px;color:#10a37f\">" ++
  "→ OpenAI 官方报道</a>"

/-- The per-article body of `cmd_merge`'s loop: parse the date (dropping
the article on failure) and build the event. -/
def art_to_event (a : PhaseArticle) : Option TLEvent :=
  match _parse_date a.date_str with
  | none => none
  | some sd =>
    let headline := if a.headline_zh ≠ "" then a.headline_zh else a.title
    let summary := a.summary_zh
    let category := a.category.getD "产品"
    let link := if a.url ≠ "" then LINK_HTML a.url else ""
    let body := if summary ≠ "" then summary ++ link else link
    some { start_date := sd, text := { headline := headline, text := body },
           group := category }

/-- The phase numbers `cmd_merge` reads, in order. -/
def phaseNums : List Nat := [1, 2, 3, 4]

/-- All events collected from the present phase files, in file order
(a missing file contributes nothing). -/
def collect_events (fs : Nat → Option (List PhaseArticle)) : List TLEvent :=
  (phaseNums.map (fun n => ((fs n).getD []).filterMap art_to_event)).flatten

/-- `int` conversion of the sort-key fields (the fields `_parse_date`
builds are always digit strings). -/
def strToNat (s : String) : Nat :=
  s.data.foldl (fun acc c => acc * 10 + digitVal c) 0

/-- Embedding of `_sort_key`: the `(year, month, day)` integer triple,
a missing day counting as 0. -/
def _sort_key (e : TLEvent) : Nat × Nat × Nat :=
  (strToNat e.start_date.year, strToNat e.start_date.month,
   match e.start_date.day with
   | some d => strToNat d
   | none => 0)

/-- Lexicographic comparison of sort-key triples — how Python compares
the key tuples of `list.sort`. -/
def key_le (a b : Nat × Nat × Nat) : Prop :=
  a.1 < b.1 ∨ (a.1 = b.1 ∧ (a.2.1 < b.2.1 ∨ (a.2.1 = b.2.1 ∧ a.2.2 ≤ b.2.2)))

/-- Event order used by `events.sort(key=_sort_key)`. -/
def ev_le (e1 e2 : TLEvent) : Prop := key_le (_sort_key e1) (_sort_key e2)

instance : DecidableRel key_le := fun a b => by
  unfold key_le; infer_instance

instance : DecidableRel ev_le := fun a b => by
  unfold ev_le; infer_instance

instance : IsTotal TLEvent ev_le := by
  constructor; intro a b; unfold ev_le key_le; omega

instance : IsTrans TLEvent ev_le := by
  constructor; intro a b c; unfold ev_le key_le; omega

/-- The sorted event list `cmd_merge` writes: Python's `list.sort` is a
stable ascending sort, modelled by insertion sort under `ev_le` (any two
stable sorts of the same list under the same total preorder agree). -/
def merged_events (fs : Nat → Option (List PhaseArticle)) : List TLEvent :=
  (collect_events fs).insertionSort ev_le

/-- Configuration of `cmd_merge`'s paths (`OUTPUT_PATH`,
`ORIGINAL_PATH`), taken as already-absolute path strings. -/
structure MergeConfig where
  output_path : String
  original_path : String
  deriving DecidableEq, Repr

/-- A side effect of `cmd_merge`, in order of occurrence. -/
inductive MergeStep where
  | readPhase (n : Nat)
  | skipPhase (n : Nat)
  | writeOutput (path : String)
  deriving DecidableEq, Repr

/-- Embedding of `cmd_merge` as its trace of side effects plus the
written events: the `assert` guard on the two paths comes first, before
any phase file is read or anything is written; when it fires, no effect
happens and nothing is produced. -/
def cmd_merge (cfg : MergeConfig) (fs : Nat → Option (List PhaseArticle)) :
    List MergeStep × Option (List TLEvent) :=
  if cfg.output_path = cfg.original_path then ([], none)
  else
    ((phaseNums.map (fun n =>
        if (fs n).isSome then MergeStep.readPhase n else MergeStep.skipPhase n)) ++
      [MergeStep.writeOutput cfg.output_path],
     some (merged_events fs))

/- ──────────────────── helper lemmas: substring and first match ──────────── -/

/-- Specification-level substring occurrence: `kw` appears contiguously
inside `text`. -/
def OccursIn (text kw : String) : Prop :=
  ∃ pre post, text.data = pre ++ kw.data ++ post

/-- A rule matches a text when one of its keywords occurs in it. -/
def RuleMatch (text : String) (rule : String × List String) : Prop :=
  ∃ kw ∈ rule.2, OccursIn text kw

theorem leadsWith_iff (pat : List Char) : ∀ l : List Char,
    leadsWith pat l = true ↔ ∃ post, l = pat ++ post := by
  induction pat with
  | nil => intro l; simp [leadsWith]
  | cons a as ih =>
    intro l
    cases l with
    | nil => simp [leadsWith]
    | cons b bs =>
      simp only [leadsWith, Bool.and_eq_true, beq_iff_eq, ih, List.cons_append,
        List.cons.injEq]
      constructor
      · rintro ⟨rfl, post, rfl⟩; exact ⟨post, rfl, rfl⟩
      · rintro ⟨post, rfl, rfl⟩; exact ⟨rfl, post, rfl⟩

theorem subAt_iff (pat : List Char) : ∀ l : List Char,
    subAt pat l = true ↔ ∃ pre post, l = pre ++ pat ++ post := by
  intro l
  induction l with
  | nil =>
    simp only [subAt, leadsWith_iff]
    constructor
    · rintro ⟨post, h⟩
      exact ⟨[], post, by simpa using h⟩
    · rintro ⟨pre, post, h⟩
      rw [eq_comm, List.append_eq_nil] at h
      obtain ⟨h1, h2⟩ := h
      rw [List.append_eq_nil] at h1
      exact ⟨[], by simp [h1.1, h1.2, h2]⟩
  | cons c rest ih =>
    simp only [subAt, Bool.or_eq_true, leadsWith_iff, ih]
    constructor
    · rintro (⟨post, h⟩ | ⟨pre, post, h⟩)
      · exact ⟨[], post, by simpa using h⟩
      · exact ⟨c :: pre, post, by simp [h]⟩
    · rintro ⟨pre, post, h⟩
      cases pre with
      | nil => exact Or.inl ⟨post, by simpa using h⟩
      | cons x xs =>
        rw [List.cons_append, List.cons_append, List.cons_eq_cons] at h
        exact Or.inr ⟨xs, post, h.2⟩

theorem containsSub_iff (text kw : String) :
    containsSub text kw = true ↔ OccursIn text kw :=
  subAt_iff kw.data text.data

theorem ruleHits_iff (text : String) (rule : String × List String) :
    ruleHits text rule = true ↔ RuleMatch text rule := by
  simp [ruleHits, RuleMatch, List.any_eq_true, containsSub_iff]

/-- `find?` returns `some x` exactly when the list splits as
`l1 ++ x :: l2` with `p x` true and `p` false on all of `l1`:
the first satisfying element wins. -/
theorem find_first_iff {α : Type} (p : α → Bool) : ∀ (l : List α) (x : α),
    l.find? p = some x ↔
      ∃ l1 l2, l = l1 ++ x :: l2 ∧ p x = true ∧ ∀ y ∈ l1, p y = false := by
  intro l
  induction l with
  | nil => intro x; simp
  | cons a l ih =>
    intro x
    by_cases hp : p a = true
    · rw [List.find?_cons_of_pos _ hp]
      constructor
      · intro h
        obtain rfl : a = x := by simpa using h
        exact ⟨[], l, rfl, hp, by simp⟩
      · rintro ⟨l1, l2, heq, hx, hfirst⟩
        cases l1 with
        | nil =>
          obtain ⟨rfl, -⟩ := List.cons_eq_cons.mp (by simpa using heq)
          rfl
        | cons b l1 =>
          rw [List.cons_append, List.cons_eq_cons] at heq
          have hb := hfirst b (by simp)
          rw [← heq.1, hp] at hb
          cases hb
    · rw [List.find?_cons_of_neg _ hp, ih]
      constructor
      · rintro ⟨l1, l2, heq, hx, hfirst⟩
        refine ⟨a :: l1, l2, by rw [heq]; rfl, hx, ?_⟩
        intro y hy
        rcases List.mem_cons.mp hy with rfl | hy
        · simpa using hp
        · exact hfirst y hy
      · rintro ⟨l1, l2, heq, hx, hfirst⟩
        cases l1 with
        | nil =>
          obtain ⟨rfl, -⟩ := List.cons_eq_cons.mp (by simpa using heq)
          exact absurd hx hp
        | cons b l1 =>
          rw [List.cons_append, List.cons_eq_cons] at heq
          exact ⟨l1, l2, heq.2, hx, fun y hy => hfirst y (List.mem_cons_of_mem _ hy)⟩

/- ──────────────────── claim theorems ────────────────────────────────────── -/

/-- C1: `classify_article` returns the category of the first rule in the
fixed `CATEGORY_RULES` order one of whose keywords occurs as a substring
of the lowercased concatenation of title and url, and returns no
category when no rule matches; in particular a text containing both
"funding" and "chatgpt" is classified "融资" because the funding rule
precedes the product rule. -/
theorem classify_article_first_rule_wins :
    (∀ title url cat,
      classify_article title url = some cat ↔
        ∃ l1 rule l2, CATEGORY_RULES = l1 ++ rule :: l2 ∧ rule.1 = cat ∧
          RuleMatch (lowerText title url) rule ∧
          ∀ r ∈ l1, ¬ RuleMatch (lowerText title url) r)
    ∧ (∀ title url,
      classify_article title url = none ↔
        ∀ r ∈ CATEGORY_RULES, ¬ RuleMatch (lowerText title url) r)
    ∧ classify_article "OpenAI announces new funding and ChatGPT updates" "" = some "融资"
    ∧ containsSub (lowerText "OpenAI announces new funding and ChatGPT updates" "") "chatgpt" = true
    ∧ classify_article "hello world" "" = none := by
  refine ⟨?_, ?_, by decide, by decide, by decide⟩
  · intro title url cat
    rw [classify_article, Option.map_eq_some']
    constructor
    · rintro ⟨rule, hfind, hcat⟩
      obtain ⟨l1, l2, heq, hx, hfirst⟩ := (find_first_iff _ _ _).mp hfind
      refine ⟨l1, rule, l2, heq, hcat, (ruleHits_iff _ _).mp hx, ?_⟩
      intro r hr hm
      have h1 := (ruleHits_iff (lowerText title url) r).mpr hm
      rw [hfirst r hr] at h1
      cases h1
    · rintro ⟨l1, rule, l2, heq, hcat, hm, hfirst⟩
      refine ⟨rule, (find_first_iff _ _ _).mpr ⟨l1, l2, heq, (ruleHits_iff _ _).mpr hm, ?_⟩, hcat⟩
      intro y hy
      rw [Bool.eq_false_iff]
      intro ht
      exact hfirst y hy ((ruleHits_iff _ _).mp ht)
  · intro title url
    simp [classify_article, Option.map_eq_none', List.find?_eq_none, ruleHits_iff]

/-- C2: the merge date parser on the spec's round-trip examples —
`"2023-05-01"` parses with the day omitted (day = 01), `"2023-05-17"`
keeps its day, `"May 17, 2023"` goes through the month-name table (full
names and three-letter abbreviations, day always included and
zero-filled), `"not a date"` fails to parse, and an article carrying an
unparseable date is dropped from the merge output. -/
theorem parse_date_round_trip :
    _parse_date "2023-05-01" = some { year := "2023", month := "05", day := none }
    ∧ _parse_date "2023-05-17" = some { year := "2023", month := "05", day := some "17" }
    ∧ _parse_date "May 17, 2023" = some { year := "2023", month := "05", day := some "17" }
    ∧ _parse_date "December 1, 2022" = some { year := "2022", month := "12", day := some "01" }
    ∧ _parse_date "Dec 5, 2019" = some { year := "2019", month := "12", day := some "05" }
    ∧ _parse_date "not a date" = none
    ∧ merged_events (fun n =>
        if n = 1 then
          some [{ title := "Good", url := "", date_str := "2023-05-17",
                  category := some "产品", headline_zh := "", summary_zh := "" },
                { title := "Bad", url := "", date_str := "not a date",
                  category := some "产品", headline_zh := "", summary_zh := "" }]
        else none) =
      [{ start_date := { year := "2023", month := "05", day := some "17" },
         text := { headline := "Good", text := "" }, group := "产品" }] := by
  exact ⟨by decide, by decide, by decide, by decide, by decide, by decide, by decide⟩

/-- C9: the strict numeric branch of `_parse_date` matches only a prefix
of the input — any string beginning with a `YYYY-MM-DD` shape of digits
parses successfully to the structured date built from those first ten
characters, whatever follows them. -/
theorem parse_date_numeric_head (s : String) (y1 y2 y3 y4 m1 m2 d1 d2 : Char)
    (rest : List Char)
    (hs : s.data = y1 :: y2 :: y3 :: y4 :: '-' :: m1 :: m2 :: '-' :: d1 :: d2 :: rest)
    (hd : ([y1, y2, y3, y4, m1, m2, d1, d2].all Char.isDigit) = true) :
    _parse_date s = some { year := String.mk [y1, y2, y3, y4],
                           month := String.mk [m1, m2],
                           day := if String.mk [d1, d2] = "01" then none
                                  else some (String.mk [d1, d2]) } := by
  simp only [List.all_cons, List.all_nil, Bool.and_eq_true, Bool.and_true] at hd
  obtain ⟨h1, h2, h3, h4, h5, h6, h7, h8⟩ := hd
  rw [_parse_date, hs]
  simp [numericDate, h1, h2, h3, h4, h5, h6, h7, h8]

/-- C9 witness: the ISO timestamp of the claim, parsed from its first ten
characters. -/
theorem parse_date_numeric_head_witness :
    _parse_date "2023-05-17T10:00:00Z" =
      some { year := "2023", month := "05", day := some "17" } := by
  have h := parse_date_numeric_head "2023-05-17T10:00:00Z"
    '2' '0' '2' '3' '0' '5' '1' '7'
    ['T', '1', '0', ':', '0', '0', ':', '0', '0', 'Z'] (by decide) (by decide)
  simpa using h

/-- C3: the events list written by merge is sorted ascending by the
`(year, month, day)` key (missing day counted as 0) for every collection
of phase-file inputs; concretely, an event dated 2019-12-01 precedes an
event dated 2020-01-15 in the output whichever of the two phase files
each came from. -/
theorem merge_events_sorted :
    (∀ fs : Nat → Option (List PhaseArticle),
      List.Sorted ev_le (merged_events fs))
    ∧ merged_events (fun n =>
        if n = 1 then
          some [{ title := "A", url := "", date_str := "2019-12-01",
                  category := some "融资", headline_zh := "", summary_zh := "" }]
        else if n = 2 then
          some [{ title := "B", url := "", date_str := "2020-01-15",
                  category := some "产品", headline_zh := "", summary_zh := "" }]
        else none) =
      [{ start_date := { year := "2019", month := "12", day := none },
         text := { headline := "A", text := "" }, group := "融资" },
       { start_date := { year := "2020", month := "01", day := some "15" },
         text := { headline := "B", text := "" }, group := "产品" }]
    ∧ merged_events (fun n =>
        if n = 1 then
          some [{ title := "B", url := "", date_str := "2020-01-15",
                  category := some "产品", headline_zh := "", summary_zh := "" }]
        else if n = 2 then
          some [{ title := "A", url := "", date_str := "2019-12-01",
                  category := some "融资", headline_zh := "", summary_zh := "" }]
        else none) =
      [{ start_date := { year := "2019", month := "12", day := none },
         text := { headline := "A", text := "" }, group := "融资" },
       { start_date := { year := "2020", month := "01", day := some "15" },
         text := { headline := "B", text := "" }, group := "产品" }] := by
  refine ⟨?_, by decide, by decide⟩
  intro fs
  rw [merged_events]
  exact List.sorted_insertionSort ev_le (collect_events fs)

/-- C4: when `cmd_merge` is configured with an output path equal to the
protected reference dataset path, the assertion guard fires before any
phase file is read or any output is written: the effect trace is empty
and nothing is produced, for every state of the phase files. -/
theorem merge_guard_precedes_effects (cfg : MergeConfig)
    (fs : Nat → Option (List PhaseArticle))
    (h : cfg.output_path = cfg.original_path) :
    cmd_merge cfg fs = ([], none) := by
  simp [cmd_merge, h]

/-- C4 witness: a configuration whose output path equals the reference
dataset path yields the empty trace and no output. -/
theorem merge_guard_precedes_effects_witness :
    cmd_merge { output_path := "contrib/examples/openai_data.json",
                original_path := "contrib/examples/openai_data.json" }
      (fun _ => none) = ([], none) :=
  merge_guard_precedes_effects _ _ rfl

/-- Membership in a phase's input set, characterized: the article is in
the raw list and its extracted year lies in the phase's range. -/
theorem mem_phaseInput (n : Nat) (arts : List RawArticle) (a : RawArticle) :
    a ∈ phaseInput n arts ↔
      ∃ lo hi, List.lookup n PHASE_RANGES = some (lo, hi) ∧ a ∈ arts ∧
        ∃ y, year_of a.date_str = some y ∧ lo ≤ y ∧ y ≤ hi := by
  unfold phaseInput
  cases h : List.lookup n PHASE_RANGES with
  | none => simp
  | some rng =>
    obtain ⟨lo, hi⟩ := rng
    simp only [phaseFilter, List.mem_filter, Option.some.injEq, Prod.mk.injEq]
    cases hy : year_of a.date_str with
    | none =>
      simp only [hy]
      constructor
      · rintro ⟨-, hfalse⟩; cases hfalse
      · rintro ⟨lo', hi', -, -, y, hy', -⟩; cases hy'
    | some y =>
      simp only [hy, Bool.and_eq_true, decide_eq_true_eq, Option.some.injEq]
      constructor
      · rintro ⟨ha, h1, h2⟩
        exact ⟨lo, hi, ⟨rfl, rfl⟩, ha, y, rfl, h1, h2⟩
      · rintro ⟨lo', hi', ⟨rfl, rfl⟩, ha, y', hy', h1, h2⟩
        subst hy'
        exact ⟨ha, h1, h2⟩

/-- The phase table, resolved: which `(lo, hi)` each phase number maps to. -/
theorem lookup_PHASE_RANGES (n : Nat) (lo hi : Nat) :
    List.lookup n PHASE_RANGES = some (lo, hi) ↔
      (n = 1 ∧ lo = 2015 ∧ hi = 2019) ∨ (n = 2 ∧ lo = 2020 ∧ hi = 2021) ∨
      (n = 3 ∧ lo = 2022 ∧ hi = 2023) ∨ (n = 4 ∧ lo = 2024 ∧ hi = 9999) := by
  simp only [PHASE_RANGES, List.lookup]
  cases h1 : n == 1 with
  | true =>
    obtain rfl : n = 1 := by simpa using h1
    dsimp only
    simp only [Option.some.injEq, Prod.mk.injEq, true_and]
    omega
  | false =>
    have hn1 : n ≠ 1 := by simpa using h1
    cases h2 : n == 2 with
    | true =>
      obtain rfl : n = 2 := by simpa using h2
      dsimp only
      simp only [Option.some.injEq, Prod.mk.injEq, true_and]
      omega
    | false =>
      have hn2 : n ≠ 2 := by simpa using h2
      cases h3 : n == 3 with
      | true =>
        obtain rfl : n = 3 := by simpa using h3
        dsimp only
        simp only [Option.some.injEq, Prod.mk.injEq, true_and]
        omega
      | false =>
        have hn3 : n ≠ 3 := by simpa using h3
        cases h4 : n == 4 with
        | true =>
          obtain rfl : n = 4 := by simpa using h4
          dsimp only
          simp only [Option.some.injEq, Prod.mk.injEq, true_and]
          omega
        | false =>
          have hn4 : n ≠ 4 := by simpa using h4
          dsimp only
          constructor
          · intro h
            exact Option.noConfusion h
          · intro h
            exfalso
            omega

/-- C6: a raw article enters phase `n`'s input set exactly when the first
year-like token of its raw date string lies in phase `n`'s year range;
the four ranges are pairwise disjoint, so no article is processed by two
phases — an article dated 2020-03-01 appears only in phase 2's input
set, and an article whose year lies outside every range (or that has no
year) is processed by no phase. -/
theorem phase_year_partition :
    (∀ (arts : List RawArticle) (a : RawArticle) (n lo hi : Nat),
        List.lookup n PHASE_RANGES = some (lo, hi) →
        (a ∈ phaseInput n arts ↔
          a ∈ arts ∧ ∃ y, year_of a.date_str = some y ∧ lo ≤ y ∧ y ≤ hi))
    ∧ (∀ (arts : List RawArticle) (a : RawArticle) (n m : Nat),
        a ∈ phaseInput n arts → a ∈ phaseInput m arts → n = m)
    ∧ (∀ (arts : List RawArticle) (a : RawArticle) (y : Nat),
        year_of a.date_str = some y → y < 2015 → ∀ n, a ∉ phaseInput n arts)
    ∧ (∀ (arts : List RawArticle) (a : RawArticle),
        year_of a.date_str = none → ∀ n, a ∉ phaseInput n arts)
    ∧ year_of "2020-03-01" = some 2020
    ∧ (∀ (arts : List RawArticle) (a : RawArticle),
        a.date_str = "2020-03-01" → a ∈ arts →
        a ∈ phaseInput 2 arts ∧ ∀ n, n ≠ 2 → a ∉ phaseInput n arts) := by
  have hdisj : ∀ (arts : List RawArticle) (a : RawArticle) (n m : Nat),
      a ∈ phaseInput n arts → a ∈ phaseInput m arts → n = m := by
    intro arts a n m hn hm
    obtain ⟨lo, hi, hlook, -, y, hy, hy1, hy2⟩ := (mem_phaseInput n arts a).mp hn
    obtain ⟨lo', hi', hlook', -, y', hy', hy1', hy2'⟩ := (mem_phaseInput m arts a).mp hm
    rw [hy, Option.some.injEq] at hy'
    subst hy'
    rcases (lookup_PHASE_RANGES n lo hi).mp hlook with
      ⟨rfl, rfl, rfl⟩ | ⟨rfl, rfl, rfl⟩ | ⟨rfl, rfl, rfl⟩ | ⟨rfl, rfl, rfl⟩ <;>
      rcases (lookup_PHASE_RANGES m lo' hi').mp hlook' with
        ⟨rfl, rfl, rfl⟩ | ⟨rfl, rfl, rfl⟩ | ⟨rfl, rfl, rfl⟩ | ⟨rfl, rfl, rfl⟩ <;>
      omega
  refine ⟨?_, hdisj, ?_, ?_, by decide, ?_⟩
  · intro arts a n lo hi h
    rw [mem_phaseInput]
    constructor
    · rintro ⟨lo', hi', hl', ha, hy⟩
      rw [h, Option.some.injEq, Prod.mk.injEq] at hl'
      obtain ⟨rfl, rfl⟩ := hl'
      exact ⟨ha, hy⟩
    · rintro ⟨ha, hy⟩
      exact ⟨lo, hi, h, ha, hy⟩
  · intro arts a y hy hlt n hmem
    obtain ⟨lo, hi, hlook, -, y', hy', hy1, hy2⟩ := (mem_phaseInput n arts a).mp hmem
    rw [hy, Option.some.injEq] at hy'
    subst hy'
    rcases (lookup_PHASE_RANGES n lo hi).mp hlook with
      ⟨rfl, rfl, rfl⟩ | ⟨rfl, rfl, rfl⟩ | ⟨rfl, rfl, rfl⟩ | ⟨rfl, rfl, rfl⟩ <;> omega
  · intro arts a hy n hmem
    obtain ⟨lo, hi, -, -, y', hy', -, -⟩ := (mem_phaseInput n arts a).mp hmem
    rw [hy] at hy'
    exact Option.noConfusion hy'
  · intro arts a hdate ha
    have h2 : a ∈ phaseInput 2 arts := by
      rw [mem_phaseInput]
      refine ⟨2020, 2021, by decide, ha, 2020, ?_, by omega, by omega⟩
      rw [hdate]
      decide
    exact ⟨h2, fun n hne hmem => hne (hdisj arts a n 2 hmem h2)⟩

/-- `translate_one` never touches the identifying fields of an article. -/
theorem translate_one_fields (a : ClassifiedArticle) (r : TransResult) :
    (translate_one a r).title = a.title ∧ (translate_one a r).url = a.url ∧
    (translate_one a r).category = a.category := by
  cases r <;> exact ⟨rfl, rfl, rfl⟩

/-- The translation loop translates item by item. -/
theorem translateFrom_length (oracle : Nat → TransResult) :
    ∀ (k : Nat) (cl : List ClassifiedArticle),
      (translateFrom oracle k cl).length = cl.length := by
  intro k cl
  induction cl generalizing k with
  | nil => rfl
  | cons c cl ih => simp [translateFrom, ih]

/-- The `i`-th output of the translation loop started at index `k` is the
`i`-th input article translated with the oracle's answer at `k + i`. -/
theorem translateFrom_getElem (oracle : Nat → TransResult) :
    ∀ (cl : List ClassifiedArticle) (k i : Nat) (a : ClassifiedArticle),
      cl[i]? = some a →
      (translateFrom oracle k cl)[i]? = some (translate_one a (oracle (k + i))) := by
  intro cl
  induction cl with
  | nil => intro k i a h; cases h
  | cons c cl ih =>
    intro k i a h
    cases i with
    | zero =>
      obtain rfl : c = a := by simpa using h
      simp [translateFrom]
    | succ i =>
      rw [List.getElem?_cons_succ] at h
      have := ih (k + 1) i a h
      rw [translateFrom, List.getElem?_cons_succ, this, Nat.add_assoc,
        Nat.add_comm 1 i]

/-- Every output of the translation loop is some input article translated
with some oracle answer. -/
theorem translateFrom_mem (oracle : Nat → TransResult) :
    ∀ (cl : List ClassifiedArticle) (k : Nat) (r : TranslatedArticle),
      r ∈ translateFrom oracle k cl →
      ∃ c ∈ cl, ∃ j, r = translate_one c (oracle j) := by
  intro cl
  induction cl with
  | nil => intro k r h; cases h
  | cons c cl ih =>
    intro k r h
    rw [translateFrom, List.mem_cons] at h
    rcases h with rfl | h
    · exact ⟨c, List.mem_cons_self c cl, k, rfl⟩
    · obtain ⟨c', hc', j, hj⟩ := ih (k + 1) r h
      exact ⟨c', List.mem_cons_of_mem _ hc', j, hj⟩

/-- Every article selected by the classification pass carries the
category its title and url classify to. -/
theorem classifyPhase_mem (arts : List RawArticle) (c : ClassifiedArticle)
    (h : c ∈ classifyPhase arts) :
    classify_article c.title c.url = some c.category := by
  rw [classifyPhase, List.mem_filterMap] at h
  obtain ⟨a, -, ha⟩ := h
  cases hcl : classify_article a.title a.url with
  | none => rw [hcl] at ha; cases ha
  | some cat =>
    rw [hcl] at ha
    have ha2 : ClassifiedArticle.mk a.title a.url a.date_str cat = c := by
      simpa using ha
    rw [← ha2]
    simpa using hcl

/-- The translation loop preserves the projection to
(title, url, category). -/
theorem translateFrom_map_proj (oracle : Nat → TransResult) :
    ∀ (k : Nat) (cl : List ClassifiedArticle),
      (translateFrom oracle k cl).map (fun r => (r.title, r.url, r.category)) =
        cl.map (fun c => (c.title, c.url, c.category)) := by
  intro k cl
  induction cl generalizing k with
  | nil => rfl
  | cons c cl ih =>
    have hf := translate_one_fields c (oracle k)
    simp [translateFrom, ih, hf.1, hf.2.1, hf.2.2]

/-- C7: a phase's persisted output consists exactly of the in-range
articles that received a category — projected to (title, url, category)
the output equals the classification pass over the phase's input, every
written record carries the category its text classifies to, and an
in-range article matched by no rule never reaches the output. -/
theorem phase_output_only_classified :
    (∀ (n : Nat) (arts : List RawArticle) (oracle : Nat → TransResult),
      (cmd_phase_output n arts oracle).map (fun r => (r.title, r.url, r.category)) =
        (phaseInput n arts).filterMap (fun a =>
          (classify_article a.title a.url).map (fun c => (a.title, a.url, c))))
    ∧ (∀ (n : Nat) (arts : List RawArticle) (oracle : Nat → TransResult)
        (r : TranslatedArticle), r ∈ cmd_phase_output n arts oracle →
        classify_article r.title r.url = some r.category)
    ∧ (∀ (n : Nat) (arts : List RawArticle) (oracle : Nat → TransResult)
        (a : RawArticle), classify_article a.title a.url = none →
        ∀ r ∈ cmd_phase_output n arts oracle,
          ¬(r.title = a.title ∧ r.url = a.url)) := by
  have honly : ∀ (n : Nat) (arts : List RawArticle) (oracle : Nat → TransResult)
      (r : TranslatedArticle), r ∈ cmd_phase_output n arts oracle →
      classify_article r.title r.url = some r.category := by
    intro n arts oracle r h
    rw [cmd_phase_output] at h
    obtain ⟨c, hc, j, rfl⟩ := translateFrom_mem oracle _ 1 r h
    have hcl := classifyPhase_mem _ c hc
    have hf := translate_one_fields c (oracle j)
    rw [hf.1, hf.2.1, hf.2.2]
    exact hcl
  refine ⟨?_, honly, ?_⟩
  · intro n arts oracle
    rw [cmd_phase_output, translateFrom_map_proj, classifyPhase, List.map_filterMap]
    congr 1
    funext x
    cases classify_article x.title x.url <;> rfl
  · intro n arts oracle a hnone r hr hmatch
    have h := honly n arts oracle r hr
    rw [hmatch.1, hmatch.2, hnone] at h
    exact Option.noConfusion h

/-- C5: a failing translation call for one item leaves that article with
`headline_zh` equal to its original title and an empty `summary_zh`, and
the loop still processes every other article of the batch — the output
has one record per classified article, each determined solely by its own
oracle answer. -/
theorem translation_failure_fallback (n : Nat) (arts : List RawArticle)
    (oracle : Nat → TransResult) (i : Nat) (a : ClassifiedArticle)
    (ha : (classifyPhase (phaseInput n arts))[i]? = some a)
    (hf : oracle (i + 1) = TransResult.fail) :
    (cmd_phase_output n arts oracle).length =
        (classifyPhase (phaseInput n arts)).length
    ∧ (cmd_phase_output n arts oracle)[i]? =
        some { title := a.title, url := a.url, date_str := a.date_str,
               category := a.category, headline_zh := a.title, summary_zh := "" }
    ∧ ∀ (j : Nat) (b : ClassifiedArticle),
        (classifyPhase (phaseInput n arts))[j]? = some b →
        (cmd_phase_output n arts oracle)[j]? =
          some (translate_one b (oracle (j + 1))) := by
  refine ⟨translateFrom_length oracle 1 _, ?_, ?_⟩
  · have h := translateFrom_getElem oracle _ 1 i a ha
    rw [Nat.add_comm 1 i, hf] at h
    exact h
  · intro j b hb
    have h := translateFrom_getElem oracle _ 1 j b hb
    rw [Nat.add_comm 1 j] at h
    exact h

/-- C5 witness: one classified article whose translation call fails ends
up in the phase file with its original title and an empty summary. -/
theorem translation_failure_fallback_witness :
    (cmd_phase_output 2
        [{ title := "Introducing ChatGPT", url := "https://openai.com/a",
           date_str := "2020-03-01" }] (fun _ => TransResult.fail)).length =
      (classifyPhase (phaseInput 2
        [{ title := "Introducing ChatGPT", url := "https://openai.com/a",
           date_str := "2020-03-01" }])).length
    ∧ (cmd_phase_output 2
        [{ title := "Introducing ChatGPT", url := "https://openai.com/a",
           date_str := "2020-03-01" }] (fun _ => TransResult.fail))[0]? =
        some { title := "Introducing ChatGPT", url := "https://openai.com/a",
               date_str := "2020-03-01", category := "产品",
               headline_zh := "Introducing ChatGPT", summary_zh := "" } := by
  have h := translation_failure_fallback 2
    [{ title := "Introducing ChatGPT", url := "https://openai.com/a",
       date_str := "2020-03-01" }] (fun _ => TransResult.fail) 0
    { title := "Introducing ChatGPT", url := "https://openai.com/a",
      date_str := "2020-03-01", category := "产品" } (by decide) rfl
  exact ⟨h.1, h.2.1⟩

/-- One dedup step never loses seen keys. -/
theorem addArticle_seen_mono (stn : FetchState × Nat) (a : RawArticle) :
    stn.1.seen ⊆ (addArticle stn a).1.seen := by
  obtain ⟨st, n⟩ := stn
  rw [addArticle]
  dsimp only
  split
  · exact fun x hx => List.mem_cons_of_mem _ hx
  · exact fun x hx => hx

/-- The whole page loop never loses seen keys. -/
theorem processPage_seen_mono :
    ∀ (page : List RawArticle) (stn : FetchState × Nat),
      stn.1.seen ⊆ (page.foldl addArticle stn).1.seen := by
  intro page
  induction page with
  | nil => intro stn; exact fun x hx => hx
  | cons p page ih =>
    intro stn
    rw [List.foldl_cons]
    exact fun x hx => ih (addArticle stn p) (addArticle_seen_mono stn p hx)

/-- After a dedup step on `a`, the (nonempty) key of `a` is seen. -/
theorem addArticle_key_seen (stn : FetchState × Nat) (a : RawArticle)
    (h : dedup_key a ≠ "") :
    dedup_key a ∈ (addArticle stn a).1.seen := by
  obtain ⟨st, n⟩ := stn
  rw [addArticle]
  split
  · exact List.mem_cons_self _ _
  · rename_i hcond
    cases hb : st.seen.contains (dedup_key a) with
    | true => exact List.elem_iff.mp hb
    | false =>
      refine absurd ?_ hcond
      rw [Bool.and_eq_true]
      exact ⟨decide_eq_true h, by rw [hb]; rfl⟩

/-- A dedup step on an already-covered record changes nothing. -/
theorem addArticle_noop (stn : FetchState × Nat) (a : RawArticle)
    (h : dedup_key a = "" ∨ dedup_key a ∈ stn.1.seen) :
    addArticle stn a = stn := by
  obtain ⟨st, n⟩ := stn
  rw [addArticle]
  split
  · rename_i hcond
    exfalso
    rw [Bool.and_eq_true, decide_eq_true_eq] at hcond
    obtain ⟨h1, h2⟩ := hcond
    rcases h with h | h
    · exact h1 h
    · have hc : st.seen.contains (dedup_key a) = true := List.elem_iff.mpr h
      rw [Bool.not_eq_true'] at h2
      rw [hc] at h2
      cases h2
  · rfl

/-- A page all of whose records are already covered adds nothing:
state unchanged, zero new records. -/
theorem processPage_noop :
    ∀ (page : List RawArticle) (stn : FetchState × Nat),
      (∀ a ∈ page, dedup_key a = "" ∨ dedup_key a ∈ stn.1.seen) →
      page.foldl addArticle stn = stn := by
  intro page
  induction page with
  | nil => intro stn _; rfl
  | cons p page ih =>
    intro stn h
    rw [List.foldl_cons, addArticle_noop stn p (h p (List.mem_cons_self p page))]
    exact ih stn (fun a ha => h a (List.mem_cons_of_mem p ha))

/-- The dedup loop invariant: every accumulated record's key is seen, and
the accumulated keys are pairwise distinct. -/
theorem processPage_invariant :
    ∀ (page : List RawArticle) (stn : FetchState × Nat),
      (∀ a ∈ stn.1.acc, dedup_key a ∈ stn.1.seen) →
      ((stn.1.acc.map dedup_key).Nodup) →
      (∀ a ∈ (page.foldl addArticle stn).1.acc,
        dedup_key a ∈ (page.foldl addArticle stn).1.seen) ∧
      (((page.foldl addArticle stn).1.acc.map dedup_key).Nodup) := by
  intro page
  induction page with
  | nil => intro stn h1 h2; exact ⟨h1, h2⟩
  | cons p page ih =>
    intro stn h1 h2
    rw [List.foldl_cons]
    have hstep :
        (∀ a ∈ (addArticle stn p).1.acc, dedup_key a ∈ (addArticle stn p).1.seen) ∧
        (((addArticle stn p).1.acc.map dedup_key).Nodup) := by
      obtain ⟨st, n⟩ := stn
      rw [addArticle]
      split
      · rename_i hcond
        rw [Bool.and_eq_true, decide_eq_true_eq, Bool.not_eq_true'] at hcond
        obtain ⟨-, hnotseen⟩ := hcond
        have hnot : dedup_key p ∉ st.seen := by
          intro hmem
          have hc : st.seen.contains (dedup_key p) = true := List.elem_iff.mpr hmem
          rw [hc] at hnotseen
          cases hnotseen
        constructor
        · intro a ha
          rw [List.mem_append] at ha
          rcases ha with ha | ha
          · exact List.mem_cons_of_mem _ (h1 a ha)
          · obtain rfl : a = p := by simpa using ha
            exact List.mem_cons_self _ _
        · rw [List.map_append, List.nodup_append]
          refine ⟨h2, by simp, ?_⟩
          intro x hx
          simp only [List.map_cons, List.map_nil, List.mem_singleton]
          intro hxp
          rw [List.mem_map] at hx
          obtain ⟨b, hb, rfl⟩ := hx
          exact hnot (hxp ▸ h1 b hb)
      · exact ⟨h1, h2⟩
    exact ih (addArticle stn p) hstep.1 hstep.2

/-- After processing a page, every nonempty key on it is seen. -/
theorem processPage_covers :
    ∀ (page : List RawArticle) (stn : FetchState × Nat) (a : RawArticle),
      a ∈ page → dedup_key a ≠ "" →
      dedup_key a ∈ (page.foldl addArticle stn).1.seen := by
  intro page
  induction page with
  | nil => intro stn a h; cases h
  | cons p page ih =>
    intro stn a hmem hk
    rw [List.foldl_cons]
    rcases List.mem_cons.mp hmem with rfl | hmem
    · exact processPage_seen_mono page _ (addArticle_key_seen stn a hk)
    · exact ih _ a hmem hk

/-- A record with an empty dedup key is never appended to the
accumulated list. -/
theorem processPage_no_empty_key :
    ∀ (page : List RawArticle) (stn : FetchState × Nat) (a : RawArticle),
      dedup_key a = "" → a ∉ stn.1.acc → a ∉ (page.foldl addArticle stn).1.acc := by
  intro page
  induction page with
  | nil => intro stn a _ h; exact h
  | cons p page ih =>
    intro stn a hk hnot
    rw [List.foldl_cons]
    refine ih _ a hk ?_
    obtain ⟨st, n⟩ := stn
    rw [addArticle]
    split
    · rename_i hcond
      rw [Bool.and_eq_true, decide_eq_true_eq] at hcond
      intro hmem
      rw [List.mem_append] at hmem
      rcases hmem with hmem | hmem
      · exact hnot hmem
      · obtain rfl : a = p := by simpa using hmem
        exact hcond.1 hk
    · exact hnot

/-- C8: the fetch dedup loop is idempotent — reprocessing a page against
the state it already produced adds zero new records and leaves the state
unchanged, and the accumulated list holds at most one record per unique
key (its keys stay pairwise distinct). -/
theorem fetch_dedup_idempotent (st : FetchState) (page : List RawArticle)
    (hcov : ∀ a ∈ st.acc, dedup_key a ∈ st.seen)
    (hnd : (st.acc.map dedup_key).Nodup) :
    processPage (processPage st page).1 page = ((processPage st page).1, 0)
    ∧ (((processPage st page).1.acc.map dedup_key).Nodup) := by
  constructor
  · rw [processPage]
    apply processPage_noop
    intro a ha
    by_cases hk : dedup_key a = ""
    · exact Or.inl hk
    · right
      rw [processPage]
      exact processPage_covers page (st, 0) a ha hk
  · rw [processPage]
    exact (processPage_invariant page (st, 0) hcov hnd).2

/-- C8 witness: a two-record page processed twice from the empty state —
the second pass is a no-op with zero new records, and the accumulated
keys are distinct. -/
theorem fetch_dedup_idempotent_witness :
    processPage (processPage { seen := [], acc := [] }
        [{ title := "T1", url := "https://openai.com/a", date_str := "d" },
         { title := "T2", url := "", date_str := "d" }]).1
      [{ title := "T1", url := "https://openai.com/a", date_str := "d" },
       { title := "T2", url := "", date_str := "d" }] =
      ((processPage { seen := [], acc := [] }
        [{ title := "T1", url := "https://openai.com/a", date_str := "d" },
         { title := "T2", url := "", date_str := "d" }]).1, 0)
    ∧ (((processPage { seen := [], acc := [] }
        [{ title := "T1", url := "https://openai.com/a", date_str := "d" },
         { title := "T2", url := "", date_str := "d" }]).1.acc.map dedup_key).Nodup) :=
  fetch_dedup_idempotent { seen := [], acc := [] }
    [{ title := "T1", url := "https://openai.com/a", date_str := "d" },
     { title := "T2", url := "", date_str := "d" }] (by decide) (by decide)

/-- C10: an extracted record whose url and title are both empty has an
empty dedup key, so the fetch loop silently drops it — the step leaves
the state and the new-record count unchanged, and the record never
enters the accumulated list however many pages are processed. -/
theorem empty_record_dropped (st : FetchState) (n : Nat) (a : RawArticle)
    (hu : a.url = "") (ht : a.title = "") :
    addArticle (st, n) a = (st, n)
    ∧ ∀ (page : List RawArticle), a ∉ st.acc → a ∉ (processPage st page).1.acc := by
  have hk : dedup_key a = "" := by
    rw [dedup_key, hu, ht]
    simp
  constructor
  · exact addArticle_noop (st, n) a (Or.inl hk)
  · intro page hnot
    rw [processPage]
    exact processPage_no_empty_key page (st, 0) a hk hnot

/-- C10 witness: an all-empty record leaves a concrete nonempty state
untouched and never appears in the cache. -/
theorem empty_record_dropped_witness :
    addArticle ({ seen := ["https://openai.com/k"],
                  acc := [{ title := "T", url := "https://openai.com/k",
                            date_str := "d" }] }, 1)
        { title := "", url := "", date_str := "2020-01-01" } =
      ({ seen := ["https://openai.com/k"],
         acc := [{ title := "T", url := "https://openai.com/k",
                   date_str := "d" }] }, 1)
    ∧ ∀ (page : List RawArticle),
        ({ title := "", url := "", date_str := "2020-01-01" } : RawArticle) ∉
          ({ seen := ["https://openai.com/k"],
             acc := [{ title := "T", url := "https://openai.com/k",
                       date_str := "d" }] } : FetchState).acc →
        ({ title := "", url := "", date_str := "2020-01-01" } : RawArticle) ∉
          (processPage { seen := ["https://openai.com/k"],
                         acc := [{ title := "T", url := "https://openai.com/k",
                                   date_str := "d" }] } page).1.acc :=
  empty_record_dropped
    { seen := ["https://openai.com/k"],
      acc := [{ title := "T", url := "https://openai.com/k", date_str := "d" }] } 1
    { title := "", url := "", date_str := "2020-01-01" } rfl rfl
